import Mathlib

/-!
Verification of the GRASS GIS history browser tree
(`gui/wxpython/history/tree.py`, class `HistoryBrowserTree`).

The development shallowly embeds the data model and the operations of the
history tree: time-bucket classification of timestamps, initial model
construction from the history log, incremental insertion, update of the
last command, removal with its durable-store side effect, and filtering.
Python dictionaries holding node data are embedded as structures; the
generic tree container (`core.treemodel`) and the durable history log API
(`grass.grassdb.history`), which are outside the embedded sources, are
modelled from the specification where noted.
-/

/-- A timestamp as stored in a history log entry: the calendar date
(`datetime.fromisoformat(...).date()`, as a day count) plus the remaining
time-of-day information, so that two timestamps on the same date need not
be equal. -/
structure Timestamp where
  date : Int
  tod : Nat
deriving DecidableEq, Repr

/-- The `command_info` sub-dictionary of a history log entry. -/
structure CommandInfo where
  timestamp : Option Timestamp
  status : Option String
deriving DecidableEq, Repr

/-- One entry of the durable history log: the raw command string and the
optional `command_info` dictionary. -/
structure LogEntry where
  command : String
  command_info : Option CommandInfo
deriving DecidableEq, Repr

/-- Data of a command node in the history tree
(`dict(type="command", name=..., timestamp=..., status=...)`). -/
structure CommandNode where
  name : String
  timestamp : Option Timestamp
  status : Option String
deriving DecidableEq, Repr

/-- Data of a time-period node in the history tree
(`dict(type="time_period", number=...)`) together with its ordered
command children. -/
structure BucketNode where
  number : Nat
  children : List CommandNode
deriving DecidableEq, Repr

/-- The in-memory history tree model: the ordered time-period children of
the (hidden) root. -/
structure Model where
  buckets : List BucketNode
deriving DecidableEq, Repr

/-- Python whitespace characters recognised by `str.strip()`. -/
def pyWhitespace (c : Char) : Bool :=
  c == ' ' || c == '\t' || c == '\n' || c == '\r' || c == '\x0b' || c == '\x0c'

/-- `str.strip()` on the underlying character list: drop whitespace from
both ends. -/
def stripChars (l : List Char) : List Char :=
  ((l.dropWhile pyWhitespace).reverse.dropWhile pyWhitespace).reverse

/-- Python `s.strip()`. -/
def pyStrip (s : String) : String :=
  String.mk (stripChars s.data)

/-- `HistoryBrowserTree._timestampToNodeNumber`: convert an optional
timestamp to a time-period node number. Today = 0, Yesterday = 1,
This week = 2, Before week = 3, Missing info = 4. `today` is the current
date at classification time (`datetime.date.today()`). -/
def timestampToNodeNumber (today : Int) (timestamp : Option Timestamp) : Nat :=
  match timestamp with
  | none => 4
  | some ts =>
    if ts.date = today then 0
    else if ts.date = today - 1 then 1
    else if ts.date > today - 7 then 2
    else 3

/-- Timestamp of a log entry as read by `_initHistoryModel`:
`entry["command_info"]["timestamp"] if entry["command_info"] else None`. -/
def entryTimestamp (e : LogEntry) : Option Timestamp :=
  e.command_info.bind (·.timestamp)

/-- Status of a log entry as read by `_initHistoryModel`:
`entry["command_info"].get("status") if entry.get("command_info") else None`. -/
def entryStatus (e : LogEntry) : Option String :=
  e.command_info.bind (·.status)

/-- Time-period node number of a log entry at build time. -/
def nodeNumberOf (today : Int) (e : LogEntry) : Nat :=
  timestampToNodeNumber today (entryTimestamp e)

/-- Command node built for a log entry by `_initHistoryModel`. -/
def mkInitNode (e : LogEntry) : CommandNode :=
  { name := pyStrip e.command
    timestamp := entryTimestamp e
    status := entryStatus e }

/-- Command node built by `InsertCommand` for an entry with command
string `command` and `command_info` dictionary `ci`: the name is the
stripped command, the timestamp is `ci["timestamp"]`, and the status is
`ci.get("status", "In process")`. -/
def mkInsertNode (command : String) (ci : CommandInfo) : CommandNode :=
  { name := pyStrip command
    timestamp := ci.timestamp
    status := some (ci.status.getD "In process") }

/-- C3 helper: the classification result is always one of the five node
numbers. -/
theorem timestampToNodeNumber_lt5 (today : Int) (ts : Option Timestamp) :
    timestampToNodeNumber today ts < 5 := by
  cases ts with
  | none => simp [timestampToNodeNumber]
  | some t =>
      simp only [timestampToNodeNumber]
      split_ifs <;> omega

/-- C3: classification of an optional timestamp into a time bucket:
absent timestamp gives Missing info (4); otherwise the entry's calendar
date is compared with today's date: equal gives Today (0), exactly one
day earlier gives Yesterday (1), strictly after today − 7 days (and
neither of the former) gives This week (2), and anything else gives
Older than week (3). -/
theorem C3_classification (today : Int) (ts : Option Timestamp) :
    (ts = none → timestampToNodeNumber today ts = 4) ∧
    (∀ t, ts = some t →
      ((timestampToNodeNumber today ts = 0 ↔ t.date = today) ∧
       (timestampToNodeNumber today ts = 1 ↔ t.date = today - 1) ∧
       (timestampToNodeNumber today ts = 2 ↔
         (today - 7 < t.date ∧ t.date ≠ today ∧ t.date ≠ today - 1)) ∧
       (timestampToNodeNumber today ts = 3 ↔
         (¬ today - 7 < t.date ∧ t.date ≠ today ∧ t.date ≠ today - 1)))) := by
  constructor
  · intro h; subst h; rfl
  · intro t ht; subst ht
    unfold timestampToNodeNumber
    dsimp only
    split_ifs <;>
      refine ⟨?_, ?_, ?_, ?_⟩ <;> constructor <;> intro hx <;>
        first
          | omega
          | (exact absurd hx (by omega))
          | (exfalso; omega)
          | tauto

/-- Witness for C3: concrete classifications. -/
theorem C3_classification_witness :
    timestampToNodeNumber 20000 none = 4 ∧
    (timestampToNodeNumber 20000 (some ⟨20000, 3⟩) = 0 ↔
      (⟨20000, 3⟩ : Timestamp).date = 20000) := by
  constructor
  · exact (C3_classification 20000 none).1 rfl
  · exact ((C3_classification 20000 (some ⟨20000, 3⟩)).2 ⟨20000, 3⟩ rfl).1

/-! ## The generic tree container, specialised to the history tree

`core.treemodel`'s `TreeModel` is outside the embedded sources; the
container operations the history tree relies on are modelled from the
specification here. -/

/-- Modelled from the spec: `TreeModel.AppendNode` on a time-period node
appends the new command node as the last child; combined with
`TreeModel.SearchNodes(parent=root, number=n, type="time_period")` whose
first result is used, the effect of `InsertCommand`'s command-node
creation is: append `nd` to the children of the first bucket whose
number is `n`. -/
def appendToFirstBucket (n : Nat) (nd : CommandNode) : List BucketNode → List BucketNode
  | [] => []
  | b :: bs =>
    if b.number == n then { b with children := b.children ++ [nd] } :: bs
    else b :: appendToFirstBucket n nd bs

/-- Modelled from the spec: `TreeModel.SearchNodes(parent=root, number=n,
type="time_period")` returns matching nodes in tree order; its first
result (`[0]`) is the first bucket with the given number. -/
def findBucket (n : Nat) : List BucketNode → Option BucketNode
  | [] => none
  | b :: bs => if b.number == n then some b else findBucket n bs

/-- Modelled from the spec: `TreeModel.RemoveNode` on the last command
child of the first bucket numbered `n` drops that child and nothing
else. -/
def removeLastOfFirstBucket (n : Nat) : List BucketNode → List BucketNode
  | [] => []
  | b :: bs =>
    if b.number == n then { b with children := b.children.dropLast } :: bs
    else b :: removeLastOfFirstBucket n bs

/-- One step of `_initHistoryModel`'s empty-period cleanup: find the
first bucket numbered `n` and remove it when it has no children
(`SearchNodes(...)[0]` followed by a conditional `RemoveNode`). -/
def removeFirstBucketIfEmpty (n : Nat) : List BucketNode → List BucketNode
  | [] => []
  | b :: bs =>
    if b.number == n then (if b.children.isEmpty then bs else b :: bs)
    else b :: removeFirstBucketIfEmpty n bs

/-! ## `_sortTimePeriods`: stable sort of the root children by number

Python's `list.sort` is a stable sort by the key `node.data["number"]`;
it is embedded as an insertion sort that inserts each element after all
previously placed elements with a key less than or equal to its own. -/

/-- Insert a bucket after every already-placed bucket whose number is
less than or equal to its own (stable insertion). -/
def insAfterLE (b : BucketNode) : List BucketNode → List BucketNode
  | [] => [b]
  | c :: cs => if c.number ≤ b.number then c :: insAfterLE b cs else b :: c :: cs


/-- `_sortTimePeriods`: stable sort of the bucket list by ascending
number. -/
def stableSortBuckets (l : List BucketNode) : List BucketNode :=
  l.foldl (fun acc b => insAfterLE b acc) []

/-- The bucket list is sorted by ascending number. -/
def sortedByNumber (bs : List BucketNode) : Prop :=
  bs.Pairwise (fun a b => a.number ≤ b.number)

theorem insAfterLE_perm (b : BucketNode) (l : List BucketNode) :
    List.Perm (insAfterLE b l) (b :: l) := by
  induction l with
  | nil => exact List.Perm.refl _
  | cons c cs ih =>
      unfold insAfterLE
      split
      · exact (ih.cons c).trans (List.Perm.swap b c cs)
      · exact List.Perm.refl _

theorem foldl_insAfterLE_perm (l acc : List BucketNode) :
    List.Perm (l.foldl (fun acc b => insAfterLE b acc) acc) (acc ++ l) := by
  induction l generalizing acc with
  | nil => simp
  | cons b bs ih =>
      simp only [List.foldl_cons]
      have h1 := ih (insAfterLE b acc)
      have h2 : List.Perm (insAfterLE b acc ++ bs) ((b :: acc) ++ bs) :=
        (insAfterLE_perm b acc).append_right bs
      have h3 : List.Perm (acc ++ b :: bs) (b :: (acc ++ bs)) := List.perm_middle
      exact h1.trans (h2.trans h3.symm)

theorem stableSortBuckets_perm (l : List BucketNode) :
    List.Perm (stableSortBuckets l) l := by
  simpa using foldl_insAfterLE_perm l []

theorem insAfterLE_sorted {l : List BucketNode} (b : BucketNode)
    (h : sortedByNumber l) : sortedByNumber (insAfterLE b l) := by
  induction l with
  | nil =>
      unfold insAfterLE sortedByNumber
      simp
  | cons c cs ih =>
      unfold sortedByNumber at h ⊢
      rw [List.pairwise_cons] at h
      unfold insAfterLE
      split
      · rename_i hle
        rw [List.pairwise_cons]
        refine ⟨?_, ih h.2⟩
        intro x hx
        rw [(insAfterLE_perm b cs).mem_iff] at hx
        rcases List.mem_cons.mp hx with h1 | h2
        · subst h1; exact hle
        · exact h.1 x h2
      · rename_i hgt
        rw [List.pairwise_cons]
        constructor
        · intro x hx
          rcases List.mem_cons.mp hx with h1 | h2
          · subst h1; omega
          · have := h.1 x h2; omega
        · rw [List.pairwise_cons]; exact h

theorem stableSortBuckets_sorted (l : List BucketNode) :
    sortedByNumber (stableSortBuckets l) := by
  suffices h : ∀ acc, sortedByNumber acc →
      sortedByNumber (l.foldl (fun acc b => insAfterLE b acc) acc) by
    exact h [] (by unfold sortedByNumber; simp)
  induction l with
  | nil => intro acc hacc; simpa using hacc
  | cons b bs ih =>
      intro acc hacc
      simp only [List.foldl_cons]
      exact ih _ (insAfterLE_sorted b hacc)

theorem insAfterLE_all_le {l : List BucketNode} (b : BucketNode)
    (h : ∀ c ∈ l, c.number ≤ b.number) : insAfterLE b l = l ++ [b] := by
  induction l with
  | nil => rfl
  | cons c cs ih =>
      unfold insAfterLE
      rw [if_pos (h c (by simp))]
      rw [ih (fun x hx => h x (by simp [hx]))]
      rfl

theorem insAfterLE_all_gt {l : List BucketNode} (b : BucketNode)
    (h : ∀ c ∈ l, b.number < c.number) : insAfterLE b l = b :: l := by
  cases l with
  | nil => rfl
  | cons c cs =>
      unfold insAfterLE
      rw [if_neg (by have := h c (by simp); omega)]

theorem stableSortBuckets_sorted_id {l : List BucketNode}
    (h : sortedByNumber l) : stableSortBuckets l = l := by
  suffices hgen : ∀ acc l, sortedByNumber (acc ++ l) →
      l.foldl (fun acc b => insAfterLE b acc) acc = acc ++ l by
    simpa using hgen [] l (by simpa using h)
  intro acc l
  induction l generalizing acc with
  | nil => intro _; simp
  | cons b bs ih =>
      intro hs
      simp only [List.foldl_cons]
      have hall : ∀ c ∈ acc, c.number ≤ b.number := by
        intro c hc
        unfold sortedByNumber at hs
        rw [List.pairwise_append] at hs
        exact hs.2.2 c hc b (by simp)
      rw [insAfterLE_all_le b hall]
      have hs' : sortedByNumber ((acc ++ [b]) ++ bs) := by
        rw [List.append_assoc]
        exact hs
      rw [ih (acc ++ [b]) hs']
      simp

/-! ## `_initHistoryModel`: building the model from the log -/

/-- The five time-period nodes created first by `_initHistoryModel`
(`for node_number in range(5): AppendNode(root, ...)`). -/
def initBuckets : List BucketNode :=
  (List.range 5).map (fun n => { number := n, children := [] })

/-- The population loop of `_initHistoryModel`: for each entry in log
order, classify its timestamp and append a command node to the matching
time-period node. -/
def populate (today : Int) (entries : List LogEntry) (bs : List BucketNode) :
    List BucketNode :=
  entries.foldl
    (fun acc e => appendToFirstBucket (nodeNumberOf today e) (mkInitNode e) acc) bs

/-- The cleanup loop of `_initHistoryModel`: for each node number in
`range(5)`, remove the time-period node when it has no children. -/
def removeEmptyPeriods (bs : List BucketNode) : List BucketNode :=
  (List.range 5).foldl (fun acc n => removeFirstBucketIfEmpty n acc) bs

/-- `_initHistoryModel` on an already-read log content list: create the
five time-period nodes, populate them from the entries, remove the empty
ones, and sort the periods by node number (`_refreshTree`). -/
def initHistoryModel (today : Int) (entries : List LogEntry) : Model :=
  ⟨stableSortBuckets (removeEmptyPeriods (populate today entries initBuckets))⟩

/-! ## `InsertCommand` and `UpdateCommand` -/

/-- `InsertCommand`: find the Today time-period node (number 0) or
create it at the end of the root's children, append the new command node
as its last child, then `_refreshTree` sorts the periods. -/
def insertCommand (m : Model) (command : String) (ci : CommandInfo) : Model :=
  let node := mkInsertNode command ci
  match findBucket 0 m.buckets with
  | some _ => ⟨stableSortBuckets (appendToFirstBucket 0 node m.buckets)⟩
  | none => ⟨stableSortBuckets (m.buckets ++ [{ number := 0, children := [node] }])⟩

/-- Failure of `UpdateCommand`: `SearchNodes(...)[0]` raises `IndexError`
when no Today node exists, and `command_nodes[-1]` raises `IndexError`
when the Today node has no command children. -/
inductive UpdateError where
  | noTodayBucket
  | emptyTodayBucket
deriving DecidableEq, Repr

/-- `UpdateCommand`: locate the Today time-period node and its last
command child, remove that child, and insert the replacement entry via
`InsertCommand`. -/
def updateCommand (m : Model) (command : String) (ci : CommandInfo) :
    Except UpdateError Model :=
  match findBucket 0 m.buckets with
  | none => .error .noTodayBucket
  | some b =>
    if b.children.isEmpty then .error .emptyTodayBucket
    else .ok (insertCommand ⟨removeLastOfFirstBucket 0 m.buckets⟩ command ci)

/-! ## The durable history log and `OnRemoveCmd` -/

/-- First index in the list satisfying the predicate. -/
def findIdxFrom (p : LogEntry → Bool) : List LogEntry → Option Nat
  | [] => none
  | e :: es => if p e then some 0 else (findIdxFrom p es).map (· + 1)

/-- A store entry matches a command node, for index resolution: equal
command string and equal timestamp. -/
def matchesEntry (command : String) (ts : Timestamp) (e : LogEntry) : Bool :=
  e.command == command && entryTimestamp e == some ts

/-- Modelled from the spec: `grass.grassdb.history.filter(json_data,
command, timestamp)` resolves the durable-store index of an entry by
matching on the (command, timestamp) pair over the given log content. -/
def historyFilter (store : List LogEntry) (command : String) (ts : Timestamp) :
    Option Nat :=
  findIdxFrom (matchesEntry command ts) store

/-- `_getIndexFromFile`: resolve the durable-store index of a command
node at the moment of the call. A node without a timestamp uses its
position in the tree (`GetIndexOfNode(node)[1]`, the position inside its
time-period parent); a node with a timestamp is matched against a fresh
read of the log by (command, timestamp). -/
def getIndexFromFile (store : List LogEntry) (node : CommandNode)
    (posInParent : Nat) : Option Nat :=
  match node.timestamp with
  | none => some posInParent
  | some ts => historyFilter store node.name ts

/-- `RemoveEntryFromHistory`: wrapper around
`grass.grassdb.history.remove_entry` that catches `OSError`/`ValueError`
and reports them with `GError`. `writeOk` models whether the durable
write succeeds; on failure the store is left unchanged and the error
dialog is shown. A missing index (no match in the log) is also surfaced
as an error with the store unchanged. Returns the new store content and
whether an error dialog was shown. -/
def removeEntryFromHistory (writeOk : Bool) (store : List LogEntry)
    (index : Option Nat) : List LogEntry × Bool :=
  match index with
  | none => (store, true)
  | some i => if writeOk then (store.eraseIdx i, false) else (store, true)

/-- Result of `OnRemoveCmd`: the new in-memory model, the new store
content, and whether a store error dialog was shown. -/
structure RemoveResult where
  model : Model
  store : List LogEntry
  gerrorShown : Bool
deriving DecidableEq, Repr

/-- `OnRemoveCmd` on the command node at position `ci` of the bucket at
position `bi` (after the user confirmed): resolve the durable index,
attempt the durable removal (whose failure is swallowed by
`RemoveEntryFromHistory`), then unconditionally remove the in-memory
node, remove its time-period parent when it became childless, and
refresh (sort). Returns `none` when the position does not denote a
command node. -/
def onRemoveCmd (writeOk : Bool) (store : List LogEntry) (m : Model)
    (bi ci : Nat) : Option RemoveResult :=
  match m.buckets[bi]? with
  | none => none
  | some b =>
    match b.children[ci]? with
    | none => none
    | some node =>
      let historyIndex := getIndexFromFile store node ci
      let res := removeEntryFromHistory writeOk store historyIndex
      let children1 := b.children.eraseIdx ci
      let bs1 := m.buckets.set bi { b with children := children1 }
      let bs2 := if children1.isEmpty then bs1.eraseIdx bi else bs1
      some ⟨⟨stableSortBuckets bs2⟩, res.1, res.2⟩

/-! ## `ReadFromHistory` -/

/-- A failure of `grass.grassdb.history.read` or of the history path
resolution: the exceptions caught by `ReadFromHistory`. -/
inductive StoreErr where
  | oserror
  | valueError
deriving DecidableEq, Repr

/-- The Python exception escaping `ReadFromHistory` when the log read
failed: `content_list` was never assigned, so `return content_list`
raises `UnboundLocalError`. -/
inductive PyExn where
  | unboundLocalError
deriving DecidableEq, Repr

/-- Observable outcome of `ReadFromHistory`: whether a `GError` dialog
was shown, and either the returned content list or the exception that
escaped. -/
structure ReadOutcome where
  gerrorShown : Bool
  outcome : Except PyExn (List LogEntry)
deriving Repr

/-- `ReadFromHistory`: `history.read` is attempted; on success its
content list is returned. On `OSError`/`ValueError` the handler shows a
`GError` dialog and falls through to `return content_list`, which raises
`UnboundLocalError` because the local was never assigned. -/
def readFromHistory (readResult : Except StoreErr (List LogEntry)) : ReadOutcome :=
  match readResult with
  | .ok l => ⟨false, .ok l⟩
  | .error _ => ⟨true, .error .unboundLocalError⟩

/-! ## `Filter` -/

/-- Modelled from the spec: `TreeModel.Filtered(method="filtering",
name=compiled, type="command")` produces the derived view keeping the
command nodes whose name the compiled pattern matches, a time-period
node surviving only when at least one child matches. -/
def filteredModel (m : Model) (p : String → Bool) : Model :=
  ⟨(m.buckets.map
      (fun b => { b with children := b.children.filter (fun c => p c.name) })).filter
    (fun b => !b.children.isEmpty)⟩

/-- The displayed model and the unfiltered original model
(`self._model` and `self._orig_model`). -/
structure ViewState where
  displayed : Model
  origModel : Model
deriving DecidableEq, Repr

/-- `Filter(text)`: an empty text restores the original model; otherwise
the text is compiled as a regular expression — `compiled` is `none` when
`re.compile` raises `re.error`, in which case the method returns at once
and the displayed model is untouched — and the original model is
filtered with the compiled pattern. -/
def filterHistory (st : ViewState) (textNonempty : Bool)
    (compiled : Option (String → Bool)) : ViewState :=
  if textNonempty then
    match compiled with
    | none => st
    | some p => { st with displayed := filteredModel st.origModel p }
  else { st with displayed := st.origModel }

/-! ## Characterisation of `_initHistoryModel` -/

/-- The shape of the root's children between the creation loop and the
cleanup loop of `_initHistoryModel`: the five time-period nodes in
creation order, with children given by `f`. -/
def bucketsOfFun (f : Nat → List CommandNode) : List BucketNode :=
  [⟨0, f 0⟩, ⟨1, f 1⟩, ⟨2, f 2⟩, ⟨3, f 3⟩, ⟨4, f 4⟩]

theorem initBuckets_eq : initBuckets = bucketsOfFun (fun _ => []) := rfl

theorem bucketsOfFun_congr {f g : Nat → List CommandNode}
    (h : ∀ n, n < 5 → f n = g n) : bucketsOfFun f = bucketsOfFun g := by
  unfold bucketsOfFun
  rw [h 0 (by omega), h 1 (by omega), h 2 (by omega), h 3 (by omega), h 4 (by omega)]

theorem nodeNumberOf_lt5 (today : Int) (e : LogEntry) : nodeNumberOf today e < 5 :=
  timestampToNodeNumber_lt5 today (entryTimestamp e)

theorem appendToFirstBucket_bucketsOfFun (k : Nat) (hk : k < 5)
    (nd : CommandNode) (f : Nat → List CommandNode) :
    appendToFirstBucket k nd (bucketsOfFun f) =
      bucketsOfFun (fun n => if n = k then f n ++ [nd] else f n) := by
  interval_cases k <;> simp [bucketsOfFun, appendToFirstBucket]

theorem populate_bucketsOfFun (today : Int) (entries : List LogEntry)
    (f : Nat → List CommandNode) :
    populate today entries (bucketsOfFun f) =
      bucketsOfFun (fun n =>
        f n ++ (entries.filter (fun e => nodeNumberOf today e == n)).map mkInitNode) := by
  induction entries generalizing f with
  | nil =>
      unfold populate
      simp only [List.foldl_nil]
      exact (bucketsOfFun_congr (fun n _ => by simp)).symm
  | cons e es ih =>
      unfold populate at ih ⊢
      simp only [List.foldl_cons]
      rw [appendToFirstBucket_bucketsOfFun _ (nodeNumberOf_lt5 today e)]
      rw [ih]
      apply bucketsOfFun_congr
      intro n _
      by_cases hn : nodeNumberOf today e = n
      · subst hn
        rw [if_pos rfl]
        rw [List.filter_cons_of_pos (by simp)]
        simp
      · rw [if_neg (fun h => hn h.symm)]
        rw [List.filter_cons_of_neg (by simp [hn])]

theorem removeEmptyPeriods_bucketsOfFun (f : Nat → List CommandNode) :
    removeEmptyPeriods (bucketsOfFun f) =
      (bucketsOfFun f).filter (fun b => !b.children.isEmpty) := by
  have h5 : List.range 5 = [0, 1, 2, 3, 4] := rfl
  unfold removeEmptyPeriods bucketsOfFun
  rw [h5]
  simp only [List.foldl_cons, List.foldl_nil]
  cases h0 : (f 0).isEmpty <;> cases h1 : (f 1).isEmpty <;>
    cases h2 : (f 2).isEmpty <;> cases h3 : (f 3).isEmpty <;>
      cases h4 : (f 4).isEmpty <;>
        simp [removeFirstBucketIfEmpty, h0, h1, h2, h3, h4, List.filter]

theorem bucketsOfFun_sorted (f : Nat → List CommandNode) :
    sortedByNumber (bucketsOfFun f) := by
  unfold sortedByNumber bucketsOfFun
  simp [List.pairwise_cons]

/-- The content list of the five-bucket characterisation of
`_initHistoryModel`'s result: the command nodes for the entries that
classify into bucket `n`, in log order. -/
def initChildren (today : Int) (entries : List LogEntry) (n : Nat) :
    List CommandNode :=
  (entries.filter (fun e => nodeNumberOf today e == n)).map mkInitNode

/-- Characterisation of `_initHistoryModel`: the resulting model is the
five time-period nodes in ascending order, each holding the command
nodes of its entries in log order, with the empty periods removed. -/
theorem initHistoryModel_eq (today : Int) (entries : List LogEntry) :
    initHistoryModel today entries =
      ⟨(bucketsOfFun (initChildren today entries)).filter
        (fun b => !b.children.isEmpty)⟩ := by
  unfold initHistoryModel
  rw [initBuckets_eq, populate_bucketsOfFun, removeEmptyPeriods_bucketsOfFun]
  have hsort : sortedByNumber
      ((bucketsOfFun (fun n =>
        [] ++ (entries.filter (fun e => nodeNumberOf today e == n)).map mkInitNode)).filter
        (fun b => !b.children.isEmpty)) := by
    unfold sortedByNumber
    exact List.Pairwise.sublist (List.filter_sublist _) (bucketsOfFun_sorted _)
  rw [stableSortBuckets_sorted_id hsort]
  have : (fun n => [] ++ (entries.filter (fun e => nodeNumberOf today e == n)).map mkInitNode)
      = initChildren today entries := by
    funext n
    simp [initChildren]
  rw [this]

/-! ## Lemmas about the container operations -/

theorem sortedByNumber_iff_map {bs : List BucketNode} :
    sortedByNumber bs ↔ (bs.map (·.number)).Pairwise (· ≤ ·) := by
  unfold sortedByNumber
  exact (List.pairwise_map).symm

theorem appendToFirstBucket_map_number (n : Nat) (nd : CommandNode)
    (bs : List BucketNode) :
    (appendToFirstBucket n nd bs).map (·.number) = bs.map (·.number) := by
  induction bs with
  | nil => rfl
  | cons b bs ih =>
      unfold appendToFirstBucket
      split
      · simp
      · simp [ih]

theorem appendToFirstBucket_sorted {bs : List BucketNode} (n : Nat)
    (nd : CommandNode) (h : sortedByNumber bs) :
    sortedByNumber (appendToFirstBucket n nd bs) := by
  rw [sortedByNumber_iff_map, appendToFirstBucket_map_number]
  exact sortedByNumber_iff_map.mp h

theorem findBucket_none_iff {n : Nat} {bs : List BucketNode} :
    findBucket n bs = none ↔ ∀ b ∈ bs, b.number ≠ n := by
  induction bs with
  | nil => simp [findBucket]
  | cons b bs ih =>
      simp only [findBucket]
      by_cases hb : b.number = n
      · rw [if_pos (by simpa using hb)]
        constructor
        · intro h; exact absurd h (by simp)
        · intro h; exact absurd hb (h b (by simp))
      · rw [if_neg (by simpa using hb)]
        rw [ih]
        constructor
        · intro h x hx
          rcases List.mem_cons.mp hx with h1 | h2
          · subst h1; exact hb
          · exact h x h2
        · intro h x hx
          exact h x (by simp [hx])

theorem findBucket_appendToFirstBucket (nd : CommandNode) (bs : List BucketNode) :
    findBucket 0 (appendToFirstBucket 0 nd bs) =
      (findBucket 0 bs).map (fun b => { b with children := b.children ++ [nd] }) := by
  induction bs with
  | nil => rfl
  | cons b bs ih =>
      simp only [appendToFirstBucket, findBucket]
      by_cases hb : b.number = 0
      · rw [if_pos (by simpa using hb), if_pos (by simpa using hb)]
        simp only [findBucket]
        rw [if_pos (by simpa using hb)]
        rfl
      · rw [if_neg (by simpa using hb), if_neg (by simpa using hb)]
        simp only [findBucket]
        rw [if_neg (by simpa using hb)]
        exact ih

theorem filter_appendToFirstBucket (nd : CommandNode) (bs : List BucketNode) :
    (appendToFirstBucket 0 nd bs).filter (fun b => b.number != 0) =
      bs.filter (fun b => b.number != 0) := by
  induction bs with
  | nil => rfl
  | cons b bs ih =>
      simp only [appendToFirstBucket]
      by_cases hb : b.number = 0
      · rw [if_pos (by simpa using hb)]
        rw [List.filter_cons_of_neg (by simpa using hb),
          List.filter_cons_of_neg (by simpa using hb)]
      · rw [if_neg (by simpa using hb)]
        rw [List.filter_cons_of_pos (by simpa using hb),
          List.filter_cons_of_pos (by simpa using hb)]
        rw [ih]

theorem appendToFirstBucket_mem {n : Nat} {nd : CommandNode} {bs : List BucketNode}
    {x : BucketNode} (hx : x ∈ appendToFirstBucket n nd bs) :
    x ∈ bs ∨ ∃ b ∈ bs, b.number = n ∧ x = { b with children := b.children ++ [nd] } := by
  induction bs with
  | nil => simp [appendToFirstBucket] at hx
  | cons b bs ih =>
      unfold appendToFirstBucket at hx
      by_cases hb : b.number == n
      · rw [if_pos hb] at hx
        rcases List.mem_cons.mp hx with h1 | h2
        · right
          exact ⟨b, by simp, by simpa using hb, h1⟩
        · left; simp [h2]
      · rw [if_neg hb] at hx
        rcases List.mem_cons.mp hx with h1 | h2
        · left; simp [h1]
        · rcases ih h2 with h3 | ⟨c, hc, hcn, hcx⟩
          · left; simp [h3]
          · right; exact ⟨c, by simp [hc], hcn, hcx⟩

theorem removeLastOfFirstBucket_map_number (n : Nat) (bs : List BucketNode) :
    (removeLastOfFirstBucket n bs).map (·.number) = bs.map (·.number) := by
  induction bs with
  | nil => rfl
  | cons b bs ih =>
      unfold removeLastOfFirstBucket
      split
      · simp
      · simp [ih]

theorem removeLastOfFirstBucket_sorted {bs : List BucketNode} (n : Nat)
    (h : sortedByNumber bs) : sortedByNumber (removeLastOfFirstBucket n bs) := by
  rw [sortedByNumber_iff_map, removeLastOfFirstBucket_map_number]
  exact sortedByNumber_iff_map.mp h

theorem findBucket_removeLastOfFirstBucket (bs : List BucketNode) :
    findBucket 0 (removeLastOfFirstBucket 0 bs) =
      (findBucket 0 bs).map (fun b => { b with children := b.children.dropLast }) := by
  induction bs with
  | nil => rfl
  | cons b bs ih =>
      simp only [removeLastOfFirstBucket, findBucket]
      by_cases hb : b.number = 0
      · rw [if_pos (by simpa using hb), if_pos (by simpa using hb)]
        simp only [findBucket]
        rw [if_pos (by simpa using hb)]
        rfl
      · rw [if_neg (by simpa using hb), if_neg (by simpa using hb)]
        simp only [findBucket]
        rw [if_neg (by simpa using hb)]
        exact ih

theorem filter_removeLastOfFirstBucket (bs : List BucketNode) :
    (removeLastOfFirstBucket 0 bs).filter (fun b => b.number != 0) =
      bs.filter (fun b => b.number != 0) := by
  induction bs with
  | nil => rfl
  | cons b bs ih =>
      simp only [removeLastOfFirstBucket]
      by_cases hb : b.number = 0
      · rw [if_pos (by simpa using hb)]
        rw [List.filter_cons_of_neg (by simpa using hb),
          List.filter_cons_of_neg (by simpa using hb)]
      · rw [if_neg (by simpa using hb)]
        rw [List.filter_cons_of_pos (by simpa using hb),
          List.filter_cons_of_pos (by simpa using hb)]
        rw [ih]

theorem removeLastOfFirstBucket_mem {n : Nat} {bs : List BucketNode}
    {x : BucketNode} (hx : x ∈ removeLastOfFirstBucket n bs) :
    x ∈ bs ∨ ∃ b ∈ bs, b.number = n ∧ x = { b with children := b.children.dropLast } := by
  induction bs with
  | nil => simp [removeLastOfFirstBucket] at hx
  | cons b bs ih =>
      unfold removeLastOfFirstBucket at hx
      by_cases hb : b.number == n
      · rw [if_pos hb] at hx
        rcases List.mem_cons.mp hx with h1 | h2
        · right
          exact ⟨b, by simp, by simpa using hb, h1⟩
        · left; simp [h2]
      · rw [if_neg hb] at hx
        rcases List.mem_cons.mp hx with h1 | h2
        · left; simp [h1]
        · rcases ih h2 with h3 | ⟨c, hc, hcn, hcx⟩
          · left; simp [h3]
          · right; exact ⟨c, by simp [hc], hcn, hcx⟩

/-! ## Characterisation of `InsertCommand` and `UpdateCommand` -/

/-- Children of the first Today time-period node, empty when the node is
absent. -/
def children0 (m : Model) : List CommandNode :=
  ((findBucket 0 m.buckets).map (·.children)).getD []

theorem insertCommand_buckets_some {m : Model} (cmd : String) (ci : CommandInfo)
    (hm : sortedByNumber m.buckets) {b : BucketNode}
    (hb : findBucket 0 m.buckets = some b) :
    (insertCommand m cmd ci).buckets =
      appendToFirstBucket 0 (mkInsertNode cmd ci) m.buckets := by
  unfold insertCommand
  rw [hb]
  exact stableSortBuckets_sorted_id (appendToFirstBucket_sorted 0 _ hm)

theorem insertCommand_buckets_none {m : Model} (cmd : String) (ci : CommandInfo)
    (hm : sortedByNumber m.buckets) (hb : findBucket 0 m.buckets = none) :
    (insertCommand m cmd ci).buckets =
      (⟨0, [mkInsertNode cmd ci]⟩ : BucketNode) :: m.buckets := by
  unfold insertCommand
  rw [hb]
  show stableSortBuckets (m.buckets ++ [⟨0, [mkInsertNode cmd ci]⟩]) = _
  have h1 : stableSortBuckets (m.buckets ++ [(⟨0, [mkInsertNode cmd ci]⟩ : BucketNode)]) =
      insAfterLE ⟨0, [mkInsertNode cmd ci]⟩ (stableSortBuckets m.buckets) := by
    unfold stableSortBuckets
    rw [List.foldl_append]
    simp
  rw [h1, stableSortBuckets_sorted_id hm]
  apply insAfterLE_all_gt
  intro c hc
  have h2 := findBucket_none_iff.mp hb c hc
  show 0 < c.number
  omega

/-- C5: `InsertCommand` always targets the Today bucket: afterwards the
first Today time-period node exists and its children are the previous
Today children (empty when the bucket was absent, which creates it) with
the new command node appended as last child; every bucket with a
different number is untouched; and the root's buckets remain sorted by
ascending number. -/
theorem C5_insert_today (m : Model) (cmd : String) (ci : CommandInfo)
    (hm : sortedByNumber m.buckets) :
    sortedByNumber (insertCommand m cmd ci).buckets ∧
    (findBucket 0 (insertCommand m cmd ci).buckets).map (·.children) =
      some (children0 m ++ [mkInsertNode cmd ci]) ∧
    (insertCommand m cmd ci).buckets.filter (fun b => b.number != 0) =
      m.buckets.filter (fun b => b.number != 0) := by
  cases hb : findBucket 0 m.buckets with
  | some b =>
      rw [insertCommand_buckets_some cmd ci hm hb]
      refine ⟨appendToFirstBucket_sorted 0 _ hm, ?_, filter_appendToFirstBucket _ _⟩
      rw [findBucket_appendToFirstBucket, hb]
      simp [children0, hb]
  | none =>
      rw [insertCommand_buckets_none cmd ci hm hb]
      refine ⟨?_, ?_, ?_⟩
      · unfold sortedByNumber
        rw [List.pairwise_cons]
        exact ⟨fun c _ => Nat.zero_le _, hm⟩
      · simp only [findBucket]
        rw [if_pos (by simp)]
        simp [children0, hb]
      · rw [List.filter_cons_of_neg (by simp)]

/-- Witness for C5: inserting into an empty model creates the Today
bucket with the single new node. -/
theorem C5_insert_today_witness :
    sortedByNumber (insertCommand ⟨[]⟩ "r.info map=a" ⟨none, none⟩).buckets ∧
    (findBucket 0 (insertCommand ⟨[]⟩ "r.info map=a" ⟨none, none⟩).buckets).map (·.children) =
      some (children0 ⟨[]⟩ ++ [mkInsertNode "r.info map=a" ⟨none, none⟩]) ∧
    (insertCommand ⟨[]⟩ "r.info map=a" ⟨none, none⟩).buckets.filter (fun b => b.number != 0) =
      (Model.mk []).buckets.filter (fun b => b.number != 0) :=
  C5_insert_today ⟨[]⟩ "r.info map=a" ⟨none, none⟩ (by unfold sortedByNumber; simp)

/-- C6: `UpdateCommand` with a non-empty Today bucket removes exactly
that bucket's last command node and appends the replacement node, every
bucket with a different number being untouched; with no Today children
it fails with an `IndexError` (the empty-bucket error). -/
theorem C6_update_last (m : Model) (cmd : String) (ci : CommandInfo)
    (hm : sortedByNumber m.buckets) :
    (children0 m ≠ [] →
      ∃ m', updateCommand m cmd ci = .ok m' ∧
        (findBucket 0 m'.buckets).map (·.children) =
          some ((children0 m).dropLast ++ [mkInsertNode cmd ci]) ∧
        m'.buckets.filter (fun b => b.number != 0) =
          m.buckets.filter (fun b => b.number != 0)) ∧
    (children0 m = [] → ∃ e, updateCommand m cmd ci = .error e) := by
  cases hb : findBucket 0 m.buckets with
  | none =>
      have hc0 : children0 m = [] := by simp [children0, hb]
      constructor
      · intro h; exact absurd hc0 h
      · intro _
        refine ⟨.noTodayBucket, ?_⟩
        unfold updateCommand
        rw [hb]
  | some b =>
      have hc0 : children0 m = b.children := by simp [children0, hb]
      by_cases hemp : b.children = []
      · constructor
        · intro h; exact absurd (hc0.trans hemp) h
        · intro _
          refine ⟨.emptyTodayBucket, ?_⟩
          unfold updateCommand
          rw [hb]
          dsimp only
          rw [if_pos (by simp [hemp])]
      · constructor
        · intro _
          have hm1 : sortedByNumber (removeLastOfFirstBucket 0 m.buckets) :=
            removeLastOfFirstBucket_sorted 0 hm
          have hfb1 : findBucket 0 (removeLastOfFirstBucket 0 m.buckets) =
              some { b with children := b.children.dropLast } := by
            rw [findBucket_removeLastOfFirstBucket, hb]
            rfl
          refine ⟨insertCommand ⟨removeLastOfFirstBucket 0 m.buckets⟩ cmd ci, ?_, ?_, ?_⟩
          · unfold updateCommand
            rw [hb]
            dsimp only
            rw [if_neg (by simp [hemp])]
          · rw [insertCommand_buckets_some cmd ci hm1 hfb1]
            rw [findBucket_appendToFirstBucket, hfb1]
            simp [hc0]
          · rw [insertCommand_buckets_some cmd ci hm1 hfb1]
            rw [filter_appendToFirstBucket, filter_removeLastOfFirstBucket]
        · intro h; exact absurd (hc0 ▸ h) hemp

/-- Witness for C6: updating a model whose Today bucket holds one node
replaces it; updating an empty model reports the error. -/
theorem C6_update_last_witness :
    (children0 ⟨[⟨0, [⟨"g.region", none, none⟩]⟩]⟩ ≠ [] →
      ∃ m', updateCommand ⟨[⟨0, [⟨"g.region", none, none⟩]⟩]⟩ "g.region -p" ⟨none, none⟩ = .ok m' ∧
        (findBucket 0 m'.buckets).map (·.children) =
          some ((children0 ⟨[⟨0, [⟨"g.region", none, none⟩]⟩]⟩).dropLast ++
            [mkInsertNode "g.region -p" ⟨none, none⟩]) ∧
        m'.buckets.filter (fun b => b.number != 0) =
          (Model.mk [⟨0, [⟨"g.region", none, none⟩]⟩]).buckets.filter (fun b => b.number != 0)) ∧
    (children0 ⟨[⟨0, [⟨"g.region", none, none⟩]⟩]⟩ = [] →
      ∃ e, updateCommand ⟨[⟨0, [⟨"g.region", none, none⟩]⟩]⟩ "g.region -p" ⟨none, none⟩ = .error e) :=
  C6_update_last ⟨[⟨0, [⟨"g.region", none, none⟩]⟩]⟩ "g.region -p" ⟨none, none⟩
    (by unfold sortedByNumber; simp)

/-! ## The bucket invariants (C8) -/

/-- The bucket invariants of the tree: no time-period node without
children, and at most one time-period node per node number. -/
def Model.wf (m : Model) : Prop :=
  (∀ b ∈ m.buckets, b.children ≠ []) ∧ (m.buckets.map (·.number)).Nodup

theorem appendToFirstBucket_mem_nodup {n : Nat} {nd : CommandNode}
    {bs : List BucketNode} {x : BucketNode}
    (hnd : (bs.map (·.number)).Nodup) (hx : x ∈ appendToFirstBucket n nd bs) :
    (x ∈ bs ∧ x.number ≠ n) ∨
      ∃ b ∈ bs, b.number = n ∧ x = { b with children := b.children ++ [nd] } := by
  induction bs with
  | nil => simp [appendToFirstBucket] at hx
  | cons b bs ih =>
      rw [List.map_cons, List.nodup_cons] at hnd
      simp only [appendToFirstBucket] at hx
      by_cases hb : b.number = n
      · rw [if_pos (by simpa using hb)] at hx
        rcases List.mem_cons.mp hx with h1 | h2
        · right; exact ⟨b, by simp, hb, h1⟩
        · left
          refine ⟨by simp [h2], ?_⟩
          intro hxn
          apply hnd.1
          have hmem := List.mem_map_of_mem (fun y => y.number) h2
          rw [hb, ← hxn]
          exact hmem
      · rw [if_neg (by simpa using hb)] at hx
        rcases List.mem_cons.mp hx with h1 | h2
        · left
          constructor
          · simp [h1]
          · rw [h1]; exact hb
        · rcases ih hnd.2 h2 with ⟨h3, h4⟩ | ⟨c, hc, hcn, hcx⟩
          · exact Or.inl ⟨by simp [h3], h4⟩
          · exact Or.inr ⟨c, by simp [hc], hcn, hcx⟩

theorem insertCommand_wf_aux (bs : List BucketNode) (cmd : String) (ci : CommandInfo)
    (hne : ∀ b ∈ bs, b.number ≠ 0 → b.children ≠ [])
    (hnd : (bs.map (·.number)).Nodup) :
    (insertCommand ⟨bs⟩ cmd ci).wf := by
  cases hb : findBucket 0 bs with
  | some b0 =>
      have hbody : (insertCommand ⟨bs⟩ cmd ci).buckets =
          stableSortBuckets (appendToFirstBucket 0 (mkInsertNode cmd ci) bs) := by
        unfold insertCommand
        rw [hb]
      unfold Model.wf
      rw [hbody]
      constructor
      · intro x hx
        rw [(stableSortBuckets_perm _).mem_iff] at hx
        rcases appendToFirstBucket_mem_nodup hnd hx with ⟨h1, h2⟩ | ⟨c, _, _, hcx⟩
        · exact hne x h1 h2
        · subst hcx; simp
      · have hp := ((stableSortBuckets_perm
          (appendToFirstBucket 0 (mkInsertNode cmd ci) bs)).map (·.number))
        rw [hp.nodup_iff]
        rw [appendToFirstBucket_map_number]
        exact hnd
  | none =>
      have hbody : (insertCommand ⟨bs⟩ cmd ci).buckets =
          stableSortBuckets (bs ++ [⟨0, [mkInsertNode cmd ci]⟩]) := by
        unfold insertCommand
        rw [hb]
      unfold Model.wf
      rw [hbody]
      constructor
      · intro x hx
        rw [(stableSortBuckets_perm _).mem_iff] at hx
        rcases List.mem_append.mp hx with h1 | h2
        · exact hne x h1 (findBucket_none_iff.mp hb x h1)
        · have : x = (⟨0, [mkInsertNode cmd ci]⟩ : BucketNode) := by simpa using h2
          subst this; simp
      · have hp := ((stableSortBuckets_perm
          (bs ++ [(⟨0, [mkInsertNode cmd ci]⟩ : BucketNode)])).map (·.number))
        rw [hp.nodup_iff]
        rw [List.map_append]
        rw [List.nodup_append]
        refine ⟨hnd, by simp, ?_⟩
        intro a ha ha0
        have ha0' : a = 0 := by simpa using ha0
        subst ha0'
        rcases List.mem_map.mp ha with ⟨c, hc, hcn⟩
        exact findBucket_none_iff.mp hb c hc hcn

theorem updateCommand_wf {m : Model} {cmd : String} {ci : CommandInfo} {m' : Model}
    (hw : m.wf) (h : updateCommand m cmd ci = .ok m') : m'.wf := by
  unfold updateCommand at h
  cases hb : findBucket 0 m.buckets with
  | none => rw [hb] at h; cases h
  | some b =>
      rw [hb] at h
      dsimp only at h
      by_cases hemp : b.children.isEmpty
      · rw [if_pos hemp] at h; cases h
      · rw [if_neg hemp] at h
        injection h with h'
        subst h'
        apply insertCommand_wf_aux
        · intro x hx hxn
          rcases removeLastOfFirstBucket_mem hx with h1 | ⟨c, _, hcn, hcx⟩
          · exact hw.1 x h1
          · exfalso
            apply hxn
            rw [hcx]
            exact hcn
        · rw [removeLastOfFirstBucket_map_number]
          exact hw.2

theorem set_getElem?_self {α : Type} {l : List α} {i : Nat} {v : α}
    (h : l[i]? = some v) : l.set i v = l := by
  induction l generalizing i with
  | nil => simp at h
  | cons a t ih =>
      cases i with
      | zero =>
          simp only [List.getElem?_cons_zero, Option.some.injEq] at h
          rw [← h]
          rfl
      | succ j =>
          simp only [List.getElem?_cons_succ] at h
          rw [List.set_cons_succ]
          rw [ih h]

theorem onRemoveCmd_wf {writeOk : Bool} {store : List LogEntry} {m : Model}
    {bi ci : Nat} {r : RemoveResult} (hw : m.wf)
    (h : onRemoveCmd writeOk store m bi ci = some r) : r.model.wf := by
  unfold onRemoveCmd at h
  cases hbi : m.buckets[bi]? with
  | none => rw [hbi] at h; cases h
  | some b =>
      rw [hbi] at h
      dsimp only at h
      cases hci : b.children[ci]? with
      | none => rw [hci] at h; cases h
      | some node =>
          rw [hci] at h
          dsimp only at h
          injection h with h'
          subst h'
          dsimp only
          have hmapset : (m.buckets.set bi
              { b with children := b.children.eraseIdx ci }).map (·.number) =
              m.buckets.map (·.number) := by
            rw [List.map_set]
            apply set_getElem?_self
            rw [List.getElem?_map, hbi]
            rfl
          by_cases hcEmp : (b.children.eraseIdx ci).isEmpty
          · rw [if_pos hcEmp]
            unfold Model.wf
            dsimp only
            constructor
            · intro x hx
              rw [(stableSortBuckets_perm _).mem_iff] at hx
              rcases List.mem_iff_getElem?.mp hx with ⟨j, hj⟩
              rw [List.getElem?_eraseIdx] at hj
              by_cases hjlt : j < bi
              · rw [if_pos hjlt] at hj
                rw [List.getElem?_set_ne (by omega)] at hj
                exact hw.1 x (List.getElem?_mem hj)
              · rw [if_neg hjlt] at hj
                rw [List.getElem?_set_ne (by omega)] at hj
                exact hw.1 x (List.getElem?_mem hj)
            · have hp := ((stableSortBuckets_perm
                ((m.buckets.set bi { b with children := b.children.eraseIdx ci }).eraseIdx bi)).map
                  (·.number))
              rw [hp.nodup_iff]
              refine List.Nodup.sublist ((List.eraseIdx_sublist _ bi).map _) ?_
              rw [hmapset]
              exact hw.2
          · rw [if_neg hcEmp]
            unfold Model.wf
            dsimp only
            constructor
            · intro x hx
              rw [(stableSortBuckets_perm _).mem_iff] at hx
              rcases List.mem_or_eq_of_mem_set hx with h1 | h2
              · exact hw.1 x h1
              · rw [h2]
                simpa using hcEmp
            · have hp := ((stableSortBuckets_perm
                (m.buckets.set bi { b with children := b.children.eraseIdx ci })).map (·.number))
              rw [hp.nodup_iff]
              rw [hmapset]
              exact hw.2

theorem initHistoryModel_wf (today : Int) (entries : List LogEntry) :
    (initHistoryModel today entries).wf := by
  rw [initHistoryModel_eq]
  unfold Model.wf
  constructor
  · intro b hb
    have hmem := List.of_mem_filter hb
    simpa using hmem
  · have hsub : List.Sublist
        (((bucketsOfFun (initChildren today entries)).filter
          (fun b => !b.children.isEmpty)).map (·.number))
        ((bucketsOfFun (initChildren today entries)).map (·.number)) :=
      (List.filter_sublist _).map _
    refine List.Nodup.sublist hsub ?_
    show ([0, 1, 2, 3, 4] : List Nat).Nodup
    decide

/-- C8: after every operation no time-period node with zero children
exists and at most one time-period node per node number exists: the
build drops the periods that end up empty, insertion never duplicates
the Today node, update refills the Today node it emptied, and removal
deletes a time-period node that loses its last child. -/
theorem C8_bucket_invariants :
    (∀ (today : Int) (entries : List LogEntry), (initHistoryModel today entries).wf) ∧
    (∀ (m : Model) (cmd : String) (ci : CommandInfo), m.wf → (insertCommand m cmd ci).wf) ∧
    (∀ (m : Model) (cmd : String) (ci : CommandInfo) (m' : Model),
      m.wf → updateCommand m cmd ci = .ok m' → m'.wf) ∧
    (∀ (writeOk : Bool) (store : List LogEntry) (m : Model) (bi ci : Nat)
      (r : RemoveResult), m.wf → onRemoveCmd writeOk store m bi ci = some r →
        r.model.wf) := by
  refine ⟨initHistoryModel_wf, ?_, ?_, ?_⟩
  · intro m cmd ci hw
    exact insertCommand_wf_aux m.buckets cmd ci (fun b hb _ => hw.1 b hb) hw.2
  · intro m cmd ci m' hw h
    exact updateCommand_wf hw h
  · intro writeOk store m bi ci r hw h
    exact onRemoveCmd_wf hw h

/-- Witness for C8: the invariants hold on concrete runs of each
operation. -/
theorem C8_bucket_invariants_witness :
    (initHistoryModel 0 [⟨"r.mask", none⟩]).wf ∧
    (insertCommand ⟨[]⟩ "v.info" ⟨none, none⟩).wf ∧
    ((⟨[⟨0, [⟨"v.info", none, none⟩, ⟨"g.region", none, none⟩]⟩]⟩ : Model).wf) ∧
    (∀ m', updateCommand ⟨[⟨0, [⟨"v.info", none, none⟩]⟩]⟩ "v.info -g" ⟨none, none⟩ =
        .ok m' → m'.wf) ∧
    (∀ r, onRemoveCmd true [⟨"v.info", none⟩] ⟨[⟨4, [⟨"v.info", none, none⟩]⟩]⟩ 0 0 =
        some r → r.model.wf) := by
  have hwf1 : (⟨[⟨0, [⟨"v.info", none, none⟩]⟩]⟩ : Model).wf := by
    unfold Model.wf
    constructor
    · intro b hb
      simp only [List.mem_singleton] at hb
      simp [hb]
    · simp
  have hwf2 : (⟨[⟨4, [⟨"v.info", none, none⟩]⟩]⟩ : Model).wf := by
    unfold Model.wf
    constructor
    · intro b hb
      simp only [List.mem_singleton] at hb
      simp [hb]
    · simp
  refine ⟨C8_bucket_invariants.1 0 [⟨"r.mask", none⟩], ?_, ?_, ?_, ?_⟩
  · apply C8_bucket_invariants.2.1 ⟨[]⟩ "v.info" ⟨none, none⟩
    unfold Model.wf
    simp
  · unfold Model.wf
    constructor
    · intro b hb
      simp only [List.mem_singleton] at hb
      simp [hb]
    · simp
  · intro m' h
    exact C8_bucket_invariants.2.2.1 _ "v.info -g" ⟨none, none⟩ m' hwf1 h
  · intro r h
    exact C8_bucket_invariants.2.2.2 true _ _ 0 0 r hwf2 h

/-- C4: `_initHistoryModel` produces the time-period nodes in strictly
ascending node-number order (Today first when present), each non-empty,
and the command children of each time-period node are exactly the
entries classified into it, in the original log order. -/
theorem C4_build_shape (today : Int) (entries : List LogEntry) :
    ((initHistoryModel today entries).buckets.map (·.number)).Pairwise (· < ·) ∧
    (∀ b ∈ (initHistoryModel today entries).buckets, b.children ≠ []) ∧
    (∀ b ∈ (initHistoryModel today entries).buckets,
      b.children = initChildren today entries b.number) := by
  refine ⟨?_, (initHistoryModel_wf today entries).1, ?_⟩
  · rw [initHistoryModel_eq]
    have hsub : List.Sublist
        (((bucketsOfFun (initChildren today entries)).filter
          (fun b => !b.children.isEmpty)).map (·.number))
        ((bucketsOfFun (initChildren today entries)).map (·.number)) :=
      (List.filter_sublist _).map _
    refine List.Pairwise.sublist hsub ?_
    show ([0, 1, 2, 3, 4] : List Nat).Pairwise (· < ·)
    decide
  · rw [initHistoryModel_eq]
    intro b hb
    have hb2 := List.mem_of_mem_filter hb
    have hb3 : b ∈ [(⟨0, initChildren today entries 0⟩ : BucketNode),
        ⟨1, initChildren today entries 1⟩, ⟨2, initChildren today entries 2⟩,
        ⟨3, initChildren today entries 3⟩, ⟨4, initChildren today entries 4⟩] := hb2
    simp only [List.mem_cons, List.not_mem_nil, or_false] at hb3
    rcases hb3 with h | h | h | h | h <;> (subst h; rfl)

/-- Witness for C4: building from a one-entry log without timestamp
gives the Missing-info node holding exactly that entry. -/
theorem C4_build_shape_witness :
    ((⟨4, [mkInitNode ⟨"r.univar map=a", none⟩]⟩ : BucketNode).children ≠ []) ∧
    ((⟨4, [mkInitNode ⟨"r.univar map=a", none⟩]⟩ : BucketNode).children =
      initChildren 0 [⟨"r.univar map=a", none⟩]
        (⟨4, [mkInitNode ⟨"r.univar map=a", none⟩]⟩ : BucketNode).number) := by
  have hmem : (⟨4, [mkInitNode ⟨"r.univar map=a", none⟩]⟩ : BucketNode) ∈
      (initHistoryModel 0 [⟨"r.univar map=a", none⟩]).buckets := by
    rw [initHistoryModel_eq]
    rw [show (bucketsOfFun (initChildren 0 [⟨"r.univar map=a", none⟩])).filter
        (fun b => !b.children.isEmpty) =
        [⟨4, [mkInitNode ⟨"r.univar map=a", none⟩]⟩] from rfl]
    simp
  exact ⟨(C4_build_shape 0 [⟨"r.univar map=a", none⟩]).2.1 _ hmem,
    (C4_build_shape 0 [⟨"r.univar map=a", none⟩]).2.2 _ hmem⟩

/-! ## Index resolution (C7) -/

theorem findIdxFrom_some {p : LogEntry → Bool} {l : List LogEntry} {i : Nat}
    (h : findIdxFrom p l = some i) :
    ∃ e, l[i]? = some e ∧ p e = true ∧
      ∀ j, j < i → ∀ e', l[j]? = some e' → p e' = false := by
  induction l generalizing i with
  | nil => simp [findIdxFrom] at h
  | cons e es ih =>
      unfold findIdxFrom at h
      by_cases hp : p e
      · rw [if_pos hp] at h
        injection h with h'
        subst h'
        exact ⟨e, by simp, hp, fun j hj => absurd hj (Nat.not_lt_zero j)⟩
      · rw [if_neg hp] at h
        cases hrec : findIdxFrom p es with
        | none => rw [hrec] at h; cases h
        | some k =>
            rw [hrec] at h
            simp only [Option.map_some'] at h
            injection h with h'
            subst h'
            rcases ih hrec with ⟨e', he', hpe', hbefore⟩
            refine ⟨e', by simpa using he', hpe', ?_⟩
            intro j hj e'' he''
            cases j with
            | zero =>
                simp only [List.getElem?_cons_zero, Option.some.injEq] at he''
                rw [← he'']
                exact Bool.eq_false_iff.mpr hp
            | succ j' =>
                simp only [List.getElem?_cons_succ] at he''
                exact hbefore j' (by omega) e'' he''

theorem findIdxFrom_none {p : LogEntry → Bool} {l : List LogEntry}
    (h : findIdxFrom p l = none) : ∀ e ∈ l, p e = false := by
  induction l with
  | nil => intro e he; simp at he
  | cons e es ih =>
      unfold findIdxFrom at h
      by_cases hp : p e
      · rw [if_pos hp] at h; cases h
      · rw [if_neg hp] at h
        intro x hx
        rcases List.mem_cons.mp hx with h1 | h2
        · rw [h1]; exact Bool.eq_false_iff.mpr hp
        · cases hrec : findIdxFrom p es with
          | none => exact ih hrec x h2
          | some k => rw [hrec] at h; cases h

/-- C7: `_getIndexFromFile` resolves the durable index at call time from
the current log content: a node without a timestamp resolves to its
position inside its time-period parent, and a node with a timestamp
resolves by scanning the freshly read log for the first entry whose
(command, timestamp) pair matches the node; a returned index points at a
matching entry preceded by no matching entry, and no index is returned
exactly when no entry matches. -/
theorem C7_index_resolution (store : List LogEntry) (node : CommandNode)
    (pos : Nat) :
    (node.timestamp = none → getIndexFromFile store node pos = some pos) ∧
    (∀ ts, node.timestamp = some ts →
      getIndexFromFile store node pos = historyFilter store node.name ts ∧
      (∀ i, historyFilter store node.name ts = some i →
        ∃ e, store[i]? = some e ∧ matchesEntry node.name ts e = true ∧
          ∀ j, j < i → ∀ e', store[j]? = some e' →
            matchesEntry node.name ts e' = false) ∧
      (historyFilter store node.name ts = none →
        ∀ e ∈ store, matchesEntry node.name ts e = false)) := by
  constructor
  · intro h
    unfold getIndexFromFile
    rw [h]
  · intro ts hts
    refine ⟨?_, ?_, ?_⟩
    · unfold getIndexFromFile
      rw [hts]
    · intro i hi
      exact findIdxFrom_some hi
    · intro hnone
      exact findIdxFrom_none hnone

/-- Witness for C7: a node without timestamp uses its tree position; a
node with a timestamp is matched in the store. -/
theorem C7_index_resolution_witness :
    getIndexFromFile [⟨"g.region -p", some ⟨some ⟨7, 0⟩, some "finished"⟩⟩]
      ⟨"d.rast", none, none⟩ 2 = some 2 ∧
    getIndexFromFile [⟨"g.region -p", some ⟨some ⟨7, 0⟩, some "finished"⟩⟩]
      ⟨"g.region -p", some ⟨7, 0⟩, none⟩ 2 =
      historyFilter [⟨"g.region -p", some ⟨some ⟨7, 0⟩, some "finished"⟩⟩]
        "g.region -p" ⟨7, 0⟩ :=
  ⟨(C7_index_resolution [⟨"g.region -p", some ⟨some ⟨7, 0⟩, some "finished"⟩⟩]
      ⟨"d.rast", none, none⟩ 2).1 rfl,
   ((C7_index_resolution [⟨"g.region -p", some ⟨some ⟨7, 0⟩, some "finished"⟩⟩]
      ⟨"g.region -p", some ⟨7, 0⟩, none⟩ 2).2 ⟨7, 0⟩ rfl).1⟩

/-! ## Filtering (C9) -/

/-- C9: a non-empty filter text whose pattern does not compile
(`re.compile` raises `re.error`) makes `Filter` a no-op: no exception
propagates (the handler returns) and the displayed model and the
original model are exactly as before. -/
theorem C9_invalid_pattern_noop (st : ViewState) :
    filterHistory st true none = st := rfl

/-! ## Stripped command names (C10) -/

theorem head?_dropWhile_not {p : Char → Bool} {l : List Char} {c : Char}
    (h : (l.dropWhile p).head? = some c) : p c = false := by
  induction l with
  | nil => simp [List.dropWhile] at h
  | cons a t ih =>
      rw [List.dropWhile_cons] at h
      by_cases hp : p a
      · rw [if_pos hp] at h
        exact ih h
      · rw [if_neg hp] at h
        simp only [List.head?_cons, Option.some.injEq] at h
        rw [← h]
        exact Bool.eq_false_iff.mpr hp

theorem getLast?_dropWhile_of_ne_nil {p : Char → Bool} {l : List Char}
    (h : l.dropWhile p ≠ []) : (l.dropWhile p).getLast? = l.getLast? := by
  induction l with
  | nil => simp [List.dropWhile] at h
  | cons a t ih =>
      rw [List.dropWhile_cons] at h ⊢
      by_cases hp : p a
      · rw [if_pos hp] at h ⊢
        have ht : t ≠ [] := by
          intro h0
          subst h0
          simp [List.dropWhile_nil] at h
        rw [ih h]
        cases t with
        | nil => exact absurd rfl ht
        | cons b t' => rw [List.getLast?_cons_cons]
      · rw [if_neg hp]

/-- The first character of a stripped string is not whitespace. -/
theorem stripChars_head_not_white {l : List Char} {c : Char}
    (h : (stripChars l).head? = some c) : pyWhitespace c = false := by
  unfold stripChars at h
  rw [List.head?_reverse] at h
  have hne : (l.dropWhile pyWhitespace).reverse.dropWhile pyWhitespace ≠ [] := by
    intro h0
    rw [h0] at h
    cases h
  rw [getLast?_dropWhile_of_ne_nil hne] at h
  rw [List.getLast?_reverse] at h
  exact head?_dropWhile_not h

/-- The last character of a stripped string is not whitespace. -/
theorem stripChars_getLast_not_white {l : List Char} {c : Char}
    (h : (stripChars l).getLast? = some c) : pyWhitespace c = false := by
  unfold stripChars at h
  rw [List.getLast?_reverse] at h
  exact head?_dropWhile_not h

/-- C10: every command node stored in the tree carries the entry's
command string stripped of leading and trailing whitespace: nodes built
by `_initHistoryModel` and nodes inserted by `InsertCommand` use
`entry["command"].strip()`, whose result neither starts nor ends with a
whitespace character. -/
theorem C10_stripped_names :
    (∀ (today : Int) (entries : List LogEntry) (b : BucketNode)
      (node : CommandNode), b ∈ (initHistoryModel today entries).buckets →
        node ∈ b.children → ∃ e ∈ entries, node.name = pyStrip e.command) ∧
    (∀ (m : Model) (cmd : String) (ci : CommandInfo) (b : BucketNode)
      (node : CommandNode), b ∈ (insertCommand m cmd ci).buckets →
        node ∈ b.children →
        (∃ b' ∈ m.buckets, node ∈ b'.children) ∨ node.name = pyStrip cmd) ∧
    (∀ (s : String) (c : Char),
      ((pyStrip s).data.head? = some c → pyWhitespace c = false) ∧
      ((pyStrip s).data.getLast? = some c → pyWhitespace c = false)) := by
  refine ⟨?_, ?_, ?_⟩
  · intro today entries b node hb hnode
    rw [initHistoryModel_eq] at hb
    have hb2 := List.mem_of_mem_filter hb
    have hb3 : b ∈ [(⟨0, initChildren today entries 0⟩ : BucketNode),
        ⟨1, initChildren today entries 1⟩, ⟨2, initChildren today entries 2⟩,
        ⟨3, initChildren today entries 3⟩, ⟨4, initChildren today entries 4⟩] := hb2
    simp only [List.mem_cons, List.not_mem_nil, or_false] at hb3
    have hchild : ∃ n, b.children = initChildren today entries n := by
      rcases hb3 with h | h | h | h | h <;> exact ⟨_, by rw [h]⟩
    rcases hchild with ⟨n, hn⟩
    rw [hn] at hnode
    unfold initChildren at hnode
    rcases List.mem_map.mp hnode with ⟨e, he, hee⟩
    exact ⟨e, List.mem_of_mem_filter he, by rw [← hee]; rfl⟩
  · intro m cmd ci b node hb hnode
    cases hbk : findBucket 0 m.buckets with
    | some b0 =>
        have hbody : (insertCommand m cmd ci).buckets =
            stableSortBuckets (appendToFirstBucket 0 (mkInsertNode cmd ci) m.buckets) := by
          unfold insertCommand
          rw [hbk]
        rw [hbody, (stableSortBuckets_perm _).mem_iff] at hb
        rcases appendToFirstBucket_mem hb with h1 | ⟨c, hc, _, hcx⟩
        · exact Or.inl ⟨b, h1, hnode⟩
        · subst hcx
          rcases List.mem_append.mp hnode with h2 | h3
          · exact Or.inl ⟨c, hc, h2⟩
          · have : node = mkInsertNode cmd ci := by simpa using h3
            subst this
            exact Or.inr rfl
    | none =>
        have hbody : (insertCommand m cmd ci).buckets =
            stableSortBuckets (m.buckets ++ [⟨0, [mkInsertNode cmd ci]⟩]) := by
          unfold insertCommand
          rw [hbk]
        rw [hbody, (stableSortBuckets_perm _).mem_iff] at hb
        rcases List.mem_append.mp hb with h1 | h2
        · exact Or.inl ⟨b, h1, hnode⟩
        · have hbx : b = (⟨0, [mkInsertNode cmd ci]⟩ : BucketNode) := by simpa using h2
          subst hbx
          have : node = mkInsertNode cmd ci := by simpa using hnode
          subst this
          exact Or.inr rfl
  · intro s c
    exact ⟨fun h => stripChars_head_not_white h, fun h => stripChars_getLast_not_white h⟩

/-- Witness for C10: a command with surrounding blanks is stored
stripped. -/
theorem C10_stripped_names_witness :
    (∃ e ∈ [(⟨"  r.info map=a ", none⟩ : LogEntry)],
      (mkInitNode ⟨"  r.info map=a ", none⟩).name = pyStrip e.command) ∧
    ((pyStrip "  r.info map=a ").data.head? = some 'r' →
      pyWhitespace 'r' = false) := by
  constructor
  · have hmem : (⟨4, [mkInitNode ⟨"  r.info map=a ", none⟩]⟩ : BucketNode) ∈
        (initHistoryModel 0 [⟨"  r.info map=a ", none⟩]).buckets := by
      rw [initHistoryModel_eq]
      rw [show (bucketsOfFun (initChildren 0 [⟨"  r.info map=a ", none⟩])).filter
          (fun b => !b.children.isEmpty) =
          [⟨4, [mkInitNode ⟨"  r.info map=a ", none⟩]⟩] from rfl]
      simp
    exact C10_stripped_names.1 0 [⟨"  r.info map=a ", none⟩] _ _ hmem (by simp)
  · exact (C10_stripped_names.2.2 "  r.info map=a " 'r').1

/-! ## Removal and the durable store (C1) -/

/-- Counterexample to C1 as stated: with the durable write failing
(`writeOk = false`), `OnRemoveCmd` does not leave the in-memory tree in
its previous state — the selected command node is removed anyway. -/
theorem C1_counterexample :
    ¬ (∀ (store : List LogEntry) (m : Model) (bi ci : Nat) (r : RemoveResult),
        onRemoveCmd false store m bi ci = some r → r.model = m) := by
  intro hclaim
  have h := hclaim [⟨"g.list", none⟩] ⟨[⟨0, [⟨"g.list", none, none⟩]⟩]⟩ 0 0
      ⟨⟨[]⟩, [⟨"g.list", none⟩], true⟩ (by rfl)
  simp at h

theorem removeEntryFromHistory_fail (store : List LogEntry) (idx : Option Nat) :
    removeEntryFromHistory false store idx = (store, true) := by
  cases idx <;> simp [removeEntryFromHistory]

/-- C1 (amended): when the durable-store removal fails, the error is
surfaced (`GError` shown by `RemoveEntryFromHistory`) and the store is
left unchanged, but `OnRemoveCmd` removes the in-memory command node all
the same: the in-memory tree ends up exactly as in the successful
case. -/
theorem C1_remove_despite_failure (store : List LogEntry) (m : Model)
    (bi ci : Nat) (r : RemoveResult)
    (h : onRemoveCmd false store m bi ci = some r) :
    r.store = store ∧ r.gerrorShown = true ∧
    (onRemoveCmd true store m bi ci).map (·.model) = some r.model := by
  unfold onRemoveCmd at h ⊢
  cases hbi : m.buckets[bi]? with
  | none => rw [hbi] at h; cases h
  | some b =>
      rw [hbi] at h
      dsimp only at h ⊢
      cases hci : b.children[ci]? with
      | none => rw [hci] at h; cases h
      | some node =>
          rw [hci] at h
          dsimp only at h ⊢
          rw [removeEntryFromHistory_fail] at h
          injection h with h'
          subst h'
          exact ⟨rfl, rfl, rfl⟩

/-- Witness for C1: a concrete failed removal keeps the store, shows the
error, and still removes the node from the tree. -/
theorem C1_remove_despite_failure_witness :
    (RemoveResult.mk ⟨[]⟩ [⟨"r.stats", none⟩] true).store = [⟨"r.stats", none⟩] ∧
    (RemoveResult.mk ⟨[]⟩ [⟨"r.stats", none⟩] true).gerrorShown = true ∧
    (onRemoveCmd true [⟨"r.stats", none⟩]
        ⟨[⟨2, [⟨"r.stats", none, none⟩]⟩]⟩ 0 0).map (·.model) =
      some (RemoveResult.mk ⟨[]⟩ [⟨"r.stats", none⟩] true).model :=
  C1_remove_despite_failure [⟨"r.stats", none⟩]
    ⟨[⟨2, [⟨"r.stats", none, none⟩]⟩]⟩ 0 0
    ⟨⟨[]⟩, [⟨"r.stats", none⟩], true⟩ (by rfl)

/-! ## Reading the history log (C2) -/

/-- C2 (documenting the code bug): when `history.read` fails, the error
dialog is shown, but `ReadFromHistory` then raises `UnboundLocalError`
(`content_list` was never assigned) instead of returning an empty
content list; a successful read returns the content unchanged with no
dialog. -/
theorem C2_read_failure_behaviour :
    (∀ err : StoreErr,
      readFromHistory (Except.error err) =
        ⟨true, Except.error PyExn.unboundLocalError⟩ ∧
      (readFromHistory (Except.error err)).outcome ≠ Except.ok []) ∧
    (∀ l : List LogEntry, readFromHistory (Except.ok l) = ⟨false, Except.ok l⟩) := by
  constructor
  · intro err
    refine ⟨rfl, ?_⟩
    simp [readFromHistory]
  · intro l
    rfl
